import Mathlib

/-!
Verification of the scoreboard score-update pipeline: action-token
verification, exactly-once (idempotent) consumption, atomic score mutation
with tie-break bookkeeping, leaderboard-cache reconciliation, and the
`sum_to_n` arithmetic routines.

The embedding follows the repository's documented design: the token format
and `generateActionToken` from the security specification, the validation
rule order from the same document, the `scores` UPDATE statement and the
token-consumption flow from `data-models.md`, the overflow handling from
EDGE-005 and the drift-detection rule from the architecture specification
and `diagrams.md`.  Timestamps are naturals, machine integers are naturals
with the `Number.MAX_SAFE_INTEGER` bound made explicit where the documents
check it, and the keyed hashes (HMAC-SHA256, SHA-256) are modelled as
ideal: the HMAC is an arbitrary function parameter and the fingerprint
hash `sha256(action_token)` is injective, so a fingerprint is represented
by the token value that determines it.
-/

/-- Largest integer a JS number represents exactly (`Number.MAX_SAFE_INTEGER`);
the application checks scores against it before an update (EDGE-005). -/
def MAX_SAFE_INTEGER : Nat := 9007199254740991

/-- Far-future millisecond timestamp from the Redis composite-score encoding
(`MAX_TIMESTAMP = 9999999999999`). -/
def MAX_TIMESTAMP : Nat := 9999999999999

/-- Decimal digit character; callers only apply it to digits `< 10`. -/
def digitChar10 : Nat → Char
  | 0 => '0' | 1 => '1' | 2 => '2' | 3 => '3' | 4 => '4'
  | 5 => '5' | 6 => '6' | 7 => '7' | 8 => '8' | _ => '9'

/-- Fuel-driven decimal rendering; the fuel only bounds the recursion depth. -/
def decCharsAux : Nat → Nat → List Char
  | 0, _ => []
  | f + 1, n => if n < 10 then [digitChar10 n] else decCharsAux f (n / 10) ++ [digitChar10 (n % 10)]

/-- Decimal digits of `n`, most significant first, as JS `${n}` renders them. -/
def decChars (n : Nat) : List Char := decCharsAux (n + 1) n

/-- Decimal string of `n`, as produced by JS template interpolation `${n}`. -/
def decStr (n : Nat) : String := ⟨decChars n⟩

/-- A signed action-completion token: `action_id`, `user_id`, `max_score`,
`expires_at` plus an HMAC signature over the canonical payload. -/
structure ActionToken where
  action_id : String
  user_id : String
  max_score : Nat
  expires_at : Nat
  signature : Nat
deriving DecidableEq, Repr

/-- Canonical payload `${actionId}:${userId}:${maxScore}:${expiresAt}`
signed by the HMAC (security specification, "Payload (before encoding)"). -/
def tokenPayload (t : ActionToken) : String :=
  t.action_id ++ ":" ++ t.user_id ++ ":" ++ decStr t.max_score ++ ":" ++ decStr t.expires_at

/-- `generateActionToken(actionId, userId, maxScore, ttlSeconds)` from the
security specification: `expiresAt = now + ttl`, payload as above,
`signature = hmacSha256(payload, ACTION_TOKEN_SECRET)`.  The keyed hash with
its fixed secret is the function parameter `hmac`. -/
def generateActionToken (hmac : String → Nat) (actionId userId : String)
    (maxScore ttlSeconds nowSec : Nat) : ActionToken :=
  let expiresAt := nowSec + ttlSeconds
  { action_id := actionId, user_id := userId, max_score := maxScore,
    expires_at := expiresAt,
    signature := hmac (actionId ++ ":" ++ userId ++ ":" ++ decStr maxScore ++ ":" ++ decStr expiresAt) }

/-- Rejection reasons of token validation, in the documented check order
(decode, HMAC, expiry, user binding); the decode step is not modelled, tokens
arrive already parsed. -/
inductive TokenError where
  | TokenForged
  | TokenExpired
  | TokenUserMismatch
deriving DecidableEq, Repr

/-- Stateless token validation: HMAC signature over the canonical payload,
then `expires_at < now`, then the user binding against the authenticated
user; returns the bound `action_id` and `max_score` on success. -/
def validateToken (hmac : String → Nat) (t : ActionToken) (authUserId : String)
    (now : Nat) : Except TokenError (String × Nat) :=
  if t.signature ≠ hmac (tokenPayload t) then .error .TokenForged
  else if t.expires_at < now then .error .TokenExpired
  else if t.user_id ≠ authUserId then .error .TokenUserMismatch
  else .ok (t.action_id, t.max_score)

/-- The consumed-token key `sha256(action_token)`, with the hash ideal
(injective), is represented by the token value that determines it. -/
abbrev TokenFingerprint := ActionToken

/-- One row of the `scores` table: current total, the tie-break watermark
`score_first_reached_at`, and `updated_at`. -/
structure ScoreRecord where
  total_score : Nat
  score_first_reached_at : Nat
  updated_at : Nat
deriving DecidableEq, Repr

/-- One append-only `score_events` audit row. -/
structure ScoreEvent where
  user_id : String
  token_fingerprint : TokenFingerprint
  delta : Nat
  score_before : Nat
  score_after : Nat
  created_at : Nat
deriving DecidableEq, Repr

/-- The `scores` UPDATE from `data-models.md`: add the delta and move the
watermark only when the total strictly increases. -/
def updateScoresRow (r : ScoreRecord) (delta now : Nat) : ScoreRecord :=
  { total_score := r.total_score + delta,
    score_first_reached_at :=
      if r.total_score + delta > r.total_score then now else r.score_first_reached_at,
    updated_at := now }

/-- Durable ledger: per-user `scores` rows plus the `score_events` audit log. -/
structure LedgerState where
  scores : List (String × ScoreRecord)
  events : List ScoreEvent
deriving DecidableEq, Repr

/-- Ledger with no rows and no events. -/
def initLedger : LedgerState := ⟨[], []⟩

/-- Authoritative ranking order `(total_score DESC, score_first_reached_at ASC)`:
`recBeats a b` holds when `a` ranks strictly higher than `b`. -/
def recBeats (a b : ScoreRecord) : Bool :=
  decide (a.total_score > b.total_score ∨
    (a.total_score = b.total_score ∧ a.score_first_reached_at < b.score_first_reached_at))

/-- Rank of a user: one plus the number of rows ranked strictly higher. -/
def rankOfScores (scores : List (String × ScoreRecord)) (uid : String) : Nat :=
  match scores.lookup uid with
  | some r => 1 + (scores.filter (fun p => recBeats p.2 r)).length
  | none => 0

/-- Rejection reason of the ledger's precondition check
(`1 <= delta <= max_score`). -/
inductive LedgerError where
  | DeltaOutOfRange
deriving DecidableEq, Repr

/-- Response payload of a successful score update. -/
structure ScoreResponse where
  new_total_score : Nat
  rank : Nat
deriving DecidableEq, Repr

/-- Current total of a user (0 when the user has no row). -/
def ledgerScoreOf (st : LedgerState) (uid : String) : Nat :=
  match st.scores.lookup uid with
  | some r => r.total_score
  | none => 0

/-- Current tie-break watermark of a user (0 when the user has no row). -/
def ledgerWatermarkOf (st : LedgerState) (uid : String) : Nat :=
  match st.scores.lookup uid with
  | some r => r.score_first_reached_at
  | none => 0

/-- The atomic `applyDelta` transaction: validate `1 <= delta <= max_score`,
cap the applied delta so the stored total never passes
`Number.MAX_SAFE_INTEGER` (EDGE-005: near overflow, alert and cap at the
maximum), run the `scores` UPDATE, append the audit event, and return the new
total with the authoritative rank. -/
def applyDelta (st : LedgerState) (uid : String) (delta maxScore : Nat)
    (fp : TokenFingerprint) (now : Nat) : Except LedgerError (LedgerState × ScoreResponse) :=
  if delta < 1 ∨ delta > maxScore then .error .DeltaOutOfRange
  else
    let r := (st.scores.lookup uid).getD ⟨0, 0, 0⟩
    let eff := min delta (MAX_SAFE_INTEGER - r.total_score)
    let r' := updateScoresRow r eff now
    let scores' := (uid, r') :: st.scores.filter (fun p => p.1 != uid)
    let ev : ScoreEvent := ⟨uid, fp, eff, r.total_score, r'.total_score, now⟩
    .ok (⟨scores', st.events ++ [ev]⟩, ⟨r'.total_score, rankOfScores scores' uid⟩)

/-- One row of the `consumed_tokens` table. -/
structure ConsumedTokenMarker where
  user_id : String
  consumed_at : Nat
  expires_at : Nat
deriving DecidableEq, Repr

/-- Durable state of the score-update pipeline: consumed markers, the cached
idempotent responses, and the ledger. -/
structure SystemState where
  consumed : List (TokenFingerprint × ConsumedTokenMarker)
  respCache : List (TokenFingerprint × ScoreResponse)
  ledger : LedgerState
deriving DecidableEq, Repr

/-- Empty pipeline state. -/
def initSystemState : SystemState := ⟨[], [], initLedger⟩

/-- Outcome a caller of the score-update entry point observes. -/
inductive UpdateResult where
  | admitted (resp : ScoreResponse)
  | replayed (resp : ScoreResponse)
  | pendingRetry
  | rejectedToken (e : TokenError)
  | rejectedDelta (e : LedgerError)
deriving DecidableEq, Repr

/-- Whether this caller was the uniquely admitted one for its token. -/
def isAdmittedB : UpdateResult → Bool
  | .admitted _ => true
  | _ => false

/-- Response payload the caller observes, when the call was not rejected. -/
def resultPayload : UpdateResult → Option ScoreResponse
  | .admitted r => some r
  | .replayed r => some r
  | _ => none

/-- The PATCH /scores pipeline in its documented order: validate the token,
validate `1 <= delta <= max_score`, then the atomic insert-if-absent of the
fingerprint into `consumed_tokens`; on conflict return the cached response
(or `pendingRetry` while the original caller has not cached one yet), and
otherwise run the ledger transaction and cache its response. -/
def processScoreUpdate (hmac : String → Nat) (st : SystemState) (tok : ActionToken)
    (authUserId : String) (delta now : Nat) : SystemState × UpdateResult :=
  match validateToken hmac tok authUserId now with
  | .error e => (st, .rejectedToken e)
  | .ok (_, maxScore) =>
    if delta < 1 ∨ delta > maxScore then (st, .rejectedDelta .DeltaOutOfRange)
    else
      match st.consumed.lookup tok with
      | some _ =>
        match st.respCache.lookup tok with
        | some resp => (st, .replayed resp)
        | none => (st, .pendingRetry)
      | none =>
        match applyDelta st.ledger authUserId delta maxScore tok now with
        | .error e => (st, .rejectedDelta e)
        | .ok (ledger', resp) =>
          ({ consumed := (tok, ⟨authUserId, now, tok.expires_at⟩) :: st.consumed,
             respCache := (tok, resp) :: st.respCache,
             ledger := ledger' }, .admitted resp)

/-- Marker garbage collection:
`DELETE FROM consumed_tokens WHERE expires_at < NOW()`. -/
def pruneConsumed (st : SystemState) (now : Nat) : SystemState :=
  { st with consumed := st.consumed.filter (fun p => !(decide (p.2.expires_at < now))) }

/-- An operation of the pipeline's durable state: a score-update submission
or a marker garbage-collection run, each stamped with its time. -/
inductive SysOp where
  | submit (tok : ActionToken) (authUserId : String) (delta now : Nat)
  | prune (now : Nat)
deriving Repr

/-- Wall-clock time of an operation. -/
def opTime : SysOp → Nat
  | .submit _ _ _ now => now
  | .prune now => now

/-- State reached after one operation. -/
def applySysOp (hmac : String → Nat) (st : SystemState) : SysOp → SystemState
  | .submit tok uid delta now => (processScoreUpdate hmac st tok uid delta now).1
  | .prune now => pruneConsumed st now

/-- State reached after a sequence of operations. -/
def runSys (hmac : String → Nat) : SystemState → List SysOp → SystemState
  | st, [] => st
  | st, op :: rest => runSys hmac (applySysOp hmac st op) rest

/-- The operation times are non-decreasing and bounded below by `t`. -/
def timesMonoB : Nat → List SysOp → Bool
  | _, [] => true
  | t, op :: rest => decide (t ≤ opTime op) && timesMonoB (opTime op) rest

/-- Number of submissions in `ops` that are admitted for fingerprint `tok`. -/
def admCount (hmac : String → Nat) : SystemState → List SysOp → TokenFingerprint → Nat
  | _, [], _ => 0
  | st, .prune now :: rest, tok => admCount hmac (pruneConsumed st now) rest tok
  | st, .submit tok' uid delta now :: rest, tok =>
    let s := processScoreUpdate hmac st tok' uid delta now
    (if tok' = tok ∧ isAdmittedB s.2 then 1 else 0) + admCount hmac s.1 rest tok

/-- One caller's submission to the score-update entry point. -/
structure SubmitRequest where
  tok : ActionToken
  authUserId : String
  delta : Nat
  now : Nat

/-- Process a batch of submissions in the serialization order imposed by the
idempotency guard's atomic insert, collecting each caller's result. -/
def processMany (hmac : String → Nat) :
    SystemState → List SubmitRequest → SystemState × List UpdateResult
  | st, [] => (st, [])
  | st, ⟨tok, uid, delta, now⟩ :: rest =>
    let s := processScoreUpdate hmac st tok uid delta now
    let m := processMany hmac s.1 rest
    (m.1, s.2 :: m.2)

/-- One cached leaderboard entry (projection of a `scores` row). -/
structure LeaderboardEntry where
  user_id : String
  total_score : Nat
  rank_watermark : Nat
deriving DecidableEq, Repr

/-- Redis composite score
`score * 1e13 + (MAX_TIMESTAMP - scoreFirstReachedAt)` from `data-models.md`. -/
def compositeScore (score ts : Nat) : Nat :=
  score * 10000000000000 + (MAX_TIMESTAMP - ts)

/-- `entryBeforeB a b` when `a` is ranked at or before `b` under
`(total_score DESC, rank_watermark ASC)`. -/
def entryBeforeB (a b : LeaderboardEntry) : Bool :=
  decide (a.total_score > b.total_score ∨
    (a.total_score = b.total_score ∧ a.rank_watermark ≤ b.rank_watermark))

/-- Insert an entry at its ranked position. -/
def insertRanked (e : LeaderboardEntry) : List LeaderboardEntry → List LeaderboardEntry
  | [] => [e]
  | x :: xs => if entryBeforeB e x then e :: x :: xs else x :: insertRanked e xs

/-- Sort entries into ranking order. -/
def sortRanked : List LeaderboardEntry → List LeaderboardEntry
  | [] => []
  | x :: xs => insertRanked x (sortRanked xs)

/-- Leaderboard entries induced by the ledger's `scores` rows. -/
def ledgerEntriesOf (st : LedgerState) : List LeaderboardEntry :=
  st.scores.map (fun p => ⟨p.1, p.2.total_score, p.2.score_first_reached_at⟩)

/-- `topN` served from the cached index. -/
def topNIndex (n : Nat) (idx : List LeaderboardEntry) : List LeaderboardEntry :=
  (sortRanked idx).take n

/-- `topN` computed directly from the ledger (the fallback query
`ORDER BY total_score DESC, score_first_reached_at ASC`). -/
def topNLedger (n : Nat) (st : LedgerState) : List LeaderboardEntry :=
  (sortRanked (ledgerEntriesOf st)).take n

/-- Number of positions at which two top-K windows differ. -/
def countDiff (l1 l2 : List LeaderboardEntry) : Nat :=
  ((List.range (max l1.length l2.length)).filter (fun i => decide (l1.get? i ≠ l2.get? i))).length

/-- One Reconciler run (diagrams.md "Sync Job"): compare the top-100 windows
member-by-member; rebuild the whole index from the ledger when more than one
entry differs, and otherwise log a clean check and leave the index alone. -/
def reconcile (ledger : LedgerState) (idx : List LeaderboardEntry) : List LeaderboardEntry :=
  if countDiff (topNIndex 100 idx) (topNLedger 100 ledger) > 1 then ledgerEntriesOf ledger
  else idx

/-- Implementation A: closed arithmetic-progression formula. -/
def sum_to_n_a (n : Nat) : Nat := (n * (n + 1)) / 2

/-- Implementation B: the loop `for (let i = 1; i <= n; i++) sum += i`. -/
def sum_to_n_b (n : Nat) : Nat := (List.range' 1 n).foldl (· + ·) 0

/-- Implementation C: `if (n <= 1) return n; return n + sum_to_n_c(n - 1)`. -/
def sum_to_n_c : Nat → Nat
  | 0 => 0
  | 1 => 1
  | m + 2 => (m + 2) + sum_to_n_c (m + 1)

/-- Equality of fallible results is decidable componentwise. -/
instance {e a : Type} [DecidableEq e] [DecidableEq a] : DecidableEq (Except e a) := fun x y =>
  match x, y with
  | .error u, .error v =>
    if h : u = v then .isTrue (by rw [h]) else .isFalse (fun hc => h (Except.error.inj hc))
  | .ok u, .ok v =>
    if h : u = v then .isTrue (by rw [h]) else .isFalse (fun hc => h (Except.ok.inj hc))
  | .error _, .ok _ => .isFalse (fun hc => Except.noConfusion hc)
  | .ok _, .error _ => .isFalse (fun hc => Except.noConfusion hc)

/-- Keyed hash standing in for HMAC-SHA256 in concrete checks: the length of
the payload in UTF-8 units. -/
def hmacLen : String → Nat := String.length

/-- Concrete valid token for concrete checks: bound to action `a1`, user `u1`,
`max_score` 50, issued at 40 with a 60-second TTL (so it expires at 100). -/
def demoTok : ActionToken := generateActionToken hmacLen "a1" "u1" 50 60 40

/-- Disposable pairwise-distinct fingerprints for direct ledger calls. -/
def fpTok (i : Nat) : TokenFingerprint := ⟨"act", "u1", 0, i, 0⟩

/-- Ledger state resulting from a successful call (the empty ledger otherwise). -/
def extractLedger (x : Except LedgerError (LedgerState × ScoreResponse)) : LedgerState :=
  match x with
  | .ok p => p.1
  | .error _ => initLedger

/-- Observed total of a user after a ledger call, when it succeeded. -/
def exceptScore (x : Except LedgerError (LedgerState × ScoreResponse)) (uid : String) :
    Option Nat :=
  match x with
  | .ok p => some (ledgerScoreOf p.1 uid)
  | .error _ => none

/-- Observed watermark of a user after a ledger call, when it succeeded. -/
def exceptWatermark (x : Except LedgerError (LedgerState × ScoreResponse)) (uid : String) :
    Option Nat :=
  match x with
  | .ok p => some (ledgerWatermarkOf p.1 uid)
  | .error _ => none

/-- Observed audit-log length after a ledger call, when it succeeded. -/
def exceptEventsLen (x : Except LedgerError (LedgerState × ScoreResponse)) : Option Nat :=
  match x with
  | .ok p => some p.1.events.length
  | .error _ => none

/-- First call of a concrete two-call history: user `u1` earns
`MAX_SAFE_INTEGER - 1` points in one admitted action at time 10. -/
def c2call1 : Except LedgerError (LedgerState × ScoreResponse) :=
  applyDelta initLedger "u1" 9007199254740990 9007199254740990 (fpTok 1) 10

/-- Second call of that history: a further delta of 2 at time 20, crossing the
`MAX_SAFE_INTEGER` cap. -/
def c2call2 : Except LedgerError (LedgerState × ScoreResponse) :=
  applyDelta (extractLedger c2call1) "u1" 2 2 (fpTok 2) 20

/-- Concrete call putting `u1` exactly at `MAX_SAFE_INTEGER` at time 10. -/
def c5call1 : Except LedgerError (LedgerState × ScoreResponse) :=
  applyDelta initLedger "u1" 9007199254740991 9007199254740991 (fpTok 3) 10

/-- Concrete follow-up call with delta 1 at time 20, at the cap. -/
def c5call2 : Except LedgerError (LedgerState × ScoreResponse) :=
  applyDelta (extractLedger c5call1) "u1" 1 1 (fpTok 4) 20

/-- Concrete call putting `u1` at `MAX_SAFE_INTEGER - 1` at time 10. -/
def c6call1 : Except LedgerError (LedgerState × ScoreResponse) :=
  applyDelta initLedger "u1" 9007199254740990 9007199254740990 (fpTok 5) 10

/-- Concrete follow-up whose requested delta 5 would pass the representable
maximum. -/
def c6call2 : Except LedgerError (LedgerState × ScoreResponse) :=
  applyDelta (extractLedger c6call1) "u1" 5 10 (fpTok 6) 20

/-- Expected ledger after `applyDelta initLedger "u1" 7 50 (fpTok 8) 42`. -/
def c5wit1 : LedgerState := ⟨[("u1", ⟨7, 42, 42⟩)], [⟨"u1", fpTok 8, 7, 0, 7, 42⟩]⟩

/-- Expected response of that call. -/
def c5wit2 : ScoreResponse := ⟨7, 1⟩

/-- Expected ledger after `applyDelta initLedger "u1" 3 10 (fpTok 9) 7`. -/
def c6wit1 : LedgerState := ⟨[("u1", ⟨3, 7, 7⟩)], [⟨"u1", fpTok 9, 3, 0, 3, 7⟩]⟩

/-- Expected response of that call. -/
def c6wit2 : ScoreResponse := ⟨3, 1⟩

/-- Concrete ledger with one user at total 100 reached at time 5. -/
def c7Ledger : LedgerState := ⟨[("u1", ⟨100, 5, 5⟩)], []⟩

/-- Concrete stale index for that ledger: the sole cached entry carries 90. -/
def c7Index : List LeaderboardEntry := [⟨"u1", 90, 5⟩]

/-- Concrete token whose `action_id` contains the separator. -/
def c8tok1 : ActionToken := ⟨"a:u1", "u2", 7, 99, hmacLen "a:u1:u2:7:99"⟩

/-- A different field tuple with the same canonical payload and signature. -/
def c8tok2 : ActionToken := ⟨"a", "u1:u2", 7, 99, hmacLen "a:u1:u2:7:99"⟩

/-- Concrete token for the replay-safety check (expires at 100). -/
def c9tok : ActionToken := generateActionToken hmacLen "a9" "u9" 30 60 40

/-- Concrete operation sequence: duplicate submissions, a garbage-collection
run after expiry, and a late resubmission. -/
def c9ops : List SysOp :=
  [.submit c9tok "u9" 5 50, .submit c9tok "u9" 5 60, .prune 120, .submit c9tok "u9" 5 130]

/-- Value of a digit string read back as a number. -/
def valOfChars (l : List Char) : Nat := l.foldl (fun acc c => acc * 10 + (c.toNat - 48)) 0

theorem digitChar10_val : ∀ d < 10, (digitChar10 d).toNat - 48 = d := by decide

theorem digitChar10_ne_colon : ∀ d < 10, digitChar10 d ≠ ':' := by decide

theorem valOfChars_append (xs : List Char) (c : Char) (acc : Nat) :
    (xs ++ [c]).foldl (fun a ch => a * 10 + (ch.toNat - 48)) acc =
    (xs.foldl (fun a ch => a * 10 + (ch.toNat - 48)) acc) * 10 + (c.toNat - 48) := by
  simp [List.foldl_append]

theorem valOfChars_decCharsAux : ∀ f n, n < f → valOfChars (decCharsAux f n) = n := by
  intro f
  induction f with
  | zero => intro n h; omega
  | succ f ih =>
    intro n h
    by_cases h10 : n < 10
    · simp [decCharsAux, h10, valOfChars]
      exact digitChar10_val n h10
    · have hn : 0 < n := by omega
      have hdiv : n / 10 < f := by
        have h1 : n / 10 < n := Nat.div_lt_self hn (by omega)
        omega
      simp only [decCharsAux, h10, if_false, valOfChars, valOfChars_append]
      have := ih (n / 10) hdiv
      simp only [valOfChars] at this
      rw [this, digitChar10_val (n % 10) (Nat.mod_lt n (by omega))]
      omega

theorem decChars_inj {m n : Nat} (h : decChars m = decChars n) : m = n := by
  have hm := valOfChars_decCharsAux (m + 1) m (Nat.lt_succ_self m)
  have hn := valOfChars_decCharsAux (n + 1) n (Nat.lt_succ_self n)
  rw [decChars] at h
  rw [h, decChars] at hm
  omega

theorem decCharsAux_no_colon : ∀ f n, ':' ∉ decCharsAux f n := by
  intro f
  induction f with
  | zero => intro n; simp [decCharsAux]
  | succ f ih =>
    intro n
    by_cases h10 : n < 10
    · simp [decCharsAux, h10]
      exact fun h => digitChar10_ne_colon n h10 h.symm
    · simp only [decCharsAux, h10, if_false, List.mem_append, List.mem_singleton]
      intro h
      rcases h with h | h
      · exact ih (n / 10) h
      · exact digitChar10_ne_colon (n % 10) (Nat.mod_lt n (by omega)) h.symm

theorem decChars_no_colon (n : Nat) : ':' ∉ decChars n := decCharsAux_no_colon (n + 1) n

theorem append_colon_inj : ∀ (a : List Char), ∀ (b r r' : List Char), ':' ∉ a → ':' ∉ b →
    a ++ ':' :: r = b ++ ':' :: r' → a = b ∧ r = r' := by
  intro a
  induction a with
  | nil =>
    intro b r r' _ hb h
    cases b with
    | nil => simpa using h
    | cons c b' =>
      simp only [List.nil_append, List.cons_append, List.cons.injEq] at h
      exact absurd (by simp [← h.1]) hb
  | cons c a' ih =>
    intro b r r' ha hb h
    cases b with
    | nil =>
      simp only [List.cons_append, List.nil_append, List.cons.injEq] at h
      exact absurd (by simp [h.1]) ha
    | cons c' b' =>
      simp only [List.cons_append, List.cons.injEq] at h
      have ha' : ':' ∉ a' := fun hm => ha (List.mem_cons_of_mem c hm)
      have hb' : ':' ∉ b' := fun hm => hb (List.mem_cons_of_mem c' hm)
      obtain ⟨h1, h2⟩ := ih b' r r' ha' hb' h.2
      exact ⟨by rw [h.1, h1], h2⟩

theorem string_data_inj {s t : String} (h : s.data = t.data) : s = t := by
  cases s; cases t; exact congrArg String.mk h

theorem decStr_data (n : Nat) : (decStr n).data = decChars n := rfl

theorem tokenPayload_data (t : ActionToken) :
    (tokenPayload t).data =
      t.action_id.data ++ ':' :: (t.user_id.data ++ ':' ::
        (decChars t.max_score ++ ':' :: decChars t.expires_at)) := by
  have hc : (":" : String).data = [':'] := rfl
  simp [tokenPayload, String.data_append, hc, decStr_data]

theorem tokenPayload_inj (t1 t2 : ActionToken)
    (h1a : ':' ∉ t1.action_id.data) (h1u : ':' ∉ t1.user_id.data)
    (h2a : ':' ∉ t2.action_id.data) (h2u : ':' ∉ t2.user_id.data)
    (h : tokenPayload t1 = tokenPayload t2) :
    t1.action_id = t2.action_id ∧ t1.user_id = t2.user_id ∧
      t1.max_score = t2.max_score ∧ t1.expires_at = t2.expires_at := by
  have hd := congrArg String.data h
  rw [tokenPayload_data, tokenPayload_data] at hd
  obtain ⟨ha, hd⟩ := append_colon_inj _ _ _ _ h1a h2a hd
  obtain ⟨hu, hd⟩ := append_colon_inj _ _ _ _ h1u h2u hd
  obtain ⟨hm, he⟩ := append_colon_inj _ _ _ _ (decChars_no_colon _) (decChars_no_colon _) hd
  exact ⟨string_data_inj ha, string_data_inj hu, decChars_inj hm, decChars_inj he⟩


theorem lookup_cons_self {α β : Type} [BEq α] [LawfulBEq α] (k : α) (v : β) (l : List (α × β)) :
    List.lookup k ((k, v) :: l) = some v := by
  simp [List.lookup]

theorem lookup_cons_ne {α β : Type} [BEq α] [LawfulBEq α] (k k' : α) (v : β) (l : List (α × β))
    (h : k ≠ k') : List.lookup k ((k', v) :: l) = List.lookup k l := by
  have hb : (k == k') = false := beq_eq_false_iff_ne.mpr h
  simp [List.lookup, hb]

theorem lookup_filter_keep {α β : Type} [BEq α] [LawfulBEq α] (p : α × β → Bool) :
    ∀ (l : List (α × β)) (k : α) (v : β), List.lookup k l = some v → p (k, v) = true →
      List.lookup k (l.filter p) = some v := by
  intro l
  induction l with
  | nil => intro k v h _; simp [List.lookup] at h
  | cons a l ih =>
    intro k v h hp
    obtain ⟨k', v'⟩ := a
    by_cases hk : k = k'
    · subst hk
      rw [lookup_cons_self] at h
      injection h with h
      subst h
      simp only [List.filter_cons, hp, if_true]
      exact lookup_cons_self _ _ _
    · rw [lookup_cons_ne k k' v' l hk] at h
      cases hp' : p (k', v') with
      | true =>
        simp only [List.filter_cons, hp', if_true]
        rw [lookup_cons_ne k k' v' _ hk]
        exact ih k v h hp
      | false =>
        simp only [List.filter_cons, hp']
        simp only [Bool.false_eq_true, if_false]
        exact ih k v h hp

theorem lookup_filter_fst_ne {α β : Type} [BEq α] [LawfulBEq α] (bad : α) :
    ∀ (l : List (α × β)) (k : α), k ≠ bad →
      List.lookup k (l.filter (fun q => q.1 != bad)) = List.lookup k l := by
  intro l
  induction l with
  | nil => intro k _; rfl
  | cons a l ih =>
    intro k hk
    obtain ⟨k', v'⟩ := a
    by_cases he : k = k'
    · subst he
      have hp : ((fun q => q.1 != bad) (k, v')) = true := by simp [hk]
      simp only [List.filter_cons, hp, if_true]
      rw [lookup_cons_self, lookup_cons_self]
    · cases hp : ((fun q => q.1 != bad) (k', v')) with
      | true =>
        simp only [List.filter_cons, hp, if_true]
        rw [lookup_cons_ne k k' v' _ he, lookup_cons_ne k k' v' l he]
        exact ih k hk
      | false =>
        simp only [List.filter_cons, hp]
        simp only [Bool.false_eq_true, if_false]
        rw [lookup_cons_ne k k' v' l he]
        exact ih k hk

theorem validateToken_ok (hmac : String → Nat) (t : ActionToken) (uid : String) (now : Nat)
    (v : String × Nat) (h : validateToken hmac t uid now = .ok v) :
    v = (t.action_id, t.max_score) ∧ t.signature = hmac (tokenPayload t) ∧
      ¬ t.expires_at < now ∧ t.user_id = uid := by
  unfold validateToken at h
  split_ifs at h with h1 h2 h3
  simp_all

theorem getD_total (st : LedgerState) (uid : String) :
    ((st.scores.lookup uid).getD ⟨0, 0, 0⟩).total_score = ledgerScoreOf st uid := by
  unfold ledgerScoreOf
  cases st.scores.lookup uid <;> rfl

theorem applyDelta_oor (st : LedgerState) (uid : String) (delta mx : Nat)
    (fp : TokenFingerprint) (now : Nat) (h : delta < 1 ∨ delta > mx) :
    applyDelta st uid delta mx fp now = .error .DeltaOutOfRange := by
  unfold applyDelta
  rw [if_pos h]

theorem applyDelta_ok_of_in_range (st : LedgerState) (uid : String) (delta mx : Nat)
    (fp : TokenFingerprint) (now : Nat) (h1 : 1 ≤ delta) (h2 : delta ≤ mx) :
    ∃ p1 p2, applyDelta st uid delta mx fp now = .ok (p1, p2) := by
  have hc : ¬ (delta < 1 ∨ delta > mx) := by omega
  unfold applyDelta
  rw [if_neg hc]
  exact ⟨_, _, rfl⟩

theorem applyDelta_ok_elim (st : LedgerState) (uid : String) (delta mx : Nat)
    (fp : TokenFingerprint) (now : Nat) (p1 : LedgerState) (p2 : ScoreResponse)
    (h : applyDelta st uid delta mx fp now = .ok (p1, p2)) :
    1 ≤ delta ∧ delta ≤ mx ∧
      p1.scores =
        (uid, updateScoresRow ((st.scores.lookup uid).getD ⟨0, 0, 0⟩)
          (min delta (MAX_SAFE_INTEGER - ledgerScoreOf st uid)) now) ::
          st.scores.filter (fun q => q.1 != uid) ∧
      p1.events = st.events ++
        [⟨uid, fp, min delta (MAX_SAFE_INTEGER - ledgerScoreOf st uid), ledgerScoreOf st uid,
          ledgerScoreOf st uid + min delta (MAX_SAFE_INTEGER - ledgerScoreOf st uid), now⟩] := by
  unfold applyDelta at h
  split_ifs at h with hr
  simp only [Except.ok.injEq, Prod.mk.injEq] at h
  obtain ⟨hp1, -⟩ := h
  refine ⟨by omega, by omega, ?_, ?_⟩
  · rw [← hp1]
    rw [getD_total]
  · rw [← hp1]
    simp only [updateScoresRow]
    rw [getD_total]

theorem ledgerScoreOf_eq_getD (st : LedgerState) (uid : String) :
    ledgerScoreOf st uid = ((st.scores.lookup uid).getD ⟨0, 0, 0⟩).total_score :=
  (getD_total st uid).symm

theorem applyDelta_score_self (st : LedgerState) (uid : String) (delta mx : Nat)
    (fp : TokenFingerprint) (now : Nat) (p1 : LedgerState) (p2 : ScoreResponse)
    (h : applyDelta st uid delta mx fp now = .ok (p1, p2)) :
    ledgerScoreOf p1 uid =
      ledgerScoreOf st uid + min delta (MAX_SAFE_INTEGER - ledgerScoreOf st uid) := by
  obtain ⟨-, -, hs, -⟩ := applyDelta_ok_elim st uid delta mx fp now p1 p2 h
  rw [ledgerScoreOf_eq_getD p1 uid, hs, lookup_cons_self]
  simp [updateScoresRow, getD_total]

theorem applyDelta_score_ge (st : LedgerState) (uid : String) (delta mx : Nat)
    (fp : TokenFingerprint) (now : Nat) (p1 : LedgerState) (p2 : ScoreResponse)
    (h : applyDelta st uid delta mx fp now = .ok (p1, p2)) (u : String) :
    ledgerScoreOf st u ≤ ledgerScoreOf p1 u := by
  by_cases hu : u = uid
  · subst hu
    rw [applyDelta_score_self st u delta mx fp now p1 p2 h]
    omega
  · obtain ⟨-, -, hs, -⟩ := applyDelta_ok_elim st uid delta mx fp now p1 p2 h
    rw [ledgerScoreOf_eq_getD p1 u, hs, lookup_cons_ne u uid _ _ hu,
      lookup_filter_fst_ne uid _ u hu, ← ledgerScoreOf_eq_getD st u]

theorem applyDelta_watermark_self (st : LedgerState) (uid : String) (delta mx : Nat)
    (fp : TokenFingerprint) (now : Nat) (p1 : LedgerState) (p2 : ScoreResponse)
    (hlt : ledgerScoreOf st uid < MAX_SAFE_INTEGER)
    (h : applyDelta st uid delta mx fp now = .ok (p1, p2)) :
    ledgerWatermarkOf p1 uid = now := by
  obtain ⟨h1, -, hs, -⟩ := applyDelta_ok_elim st uid delta mx fp now p1 p2 h
  have hwm : ledgerWatermarkOf p1 uid =
      (updateScoresRow ((st.scores.lookup uid).getD ⟨0, 0, 0⟩)
        (min delta (MAX_SAFE_INTEGER - ledgerScoreOf st uid)) now).score_first_reached_at := by
    unfold ledgerWatermarkOf
    rw [hs, lookup_cons_self]
  rw [hwm]
  simp only [updateScoresRow]
  rw [getD_total, if_pos (by omega)]

theorem applyDelta_events_len (st : LedgerState) (uid : String) (delta mx : Nat)
    (fp : TokenFingerprint) (now : Nat) (p1 : LedgerState) (p2 : ScoreResponse)
    (h : applyDelta st uid delta mx fp now = .ok (p1, p2)) :
    p1.events.length = st.events.length + 1 := by
  obtain ⟨-, -, -, he⟩ := applyDelta_ok_elim st uid delta mx fp now p1 p2 h
  simp [he]

theorem applyDelta_events_mem (st : LedgerState) (uid : String) (delta mx : Nat)
    (fp : TokenFingerprint) (now : Nat) (p1 : LedgerState) (p2 : ScoreResponse)
    (h : applyDelta st uid delta mx fp now = .ok (p1, p2)) :
    ∀ e ∈ p1.events, e ∈ st.events ∨ e.score_after = e.score_before + e.delta := by
  obtain ⟨-, -, -, he⟩ := applyDelta_ok_elim st uid delta mx fp now p1 p2 h
  intro e hm
  rw [he, List.mem_append] at hm
  rcases hm with hm | hm
  · exact Or.inl hm
  · right
    simp at hm
    subst hm
    rfl

theorem process_validate_error (hmac : String → Nat) (st : SystemState) (tok : ActionToken)
    (uid : String) (delta now : Nat) (e : TokenError)
    (h : validateToken hmac tok uid now = .error e) :
    processScoreUpdate hmac st tok uid delta now = (st, .rejectedToken e) := by
  simp [processScoreUpdate, h]

theorem process_oor (hmac : String → Nat) (st : SystemState) (tok : ActionToken)
    (uid : String) (delta now : Nat) (aid : String) (mx : Nat)
    (hv : validateToken hmac tok uid now = .ok (aid, mx)) (hd : delta < 1 ∨ delta > mx) :
    processScoreUpdate hmac st tok uid delta now = (st, .rejectedDelta .DeltaOutOfRange) := by
  simp only [processScoreUpdate, hv]
  rw [if_pos hd]

theorem process_consumed_cached (hmac : String → Nat) (st : SystemState) (tok : ActionToken)
    (uid : String) (delta now : Nat) (aid : String) (mx : Nat) (m : ConsumedTokenMarker)
    (resp : ScoreResponse)
    (hv : validateToken hmac tok uid now = .ok (aid, mx)) (hr : ¬ (delta < 1 ∨ delta > mx))
    (hm : st.consumed.lookup tok = some m) (hc : st.respCache.lookup tok = some resp) :
    processScoreUpdate hmac st tok uid delta now = (st, .replayed resp) := by
  simp only [processScoreUpdate, hv]
  rw [if_neg hr]
  simp [hm, hc]

theorem process_consumed_pending (hmac : String → Nat) (st : SystemState) (tok : ActionToken)
    (uid : String) (delta now : Nat) (aid : String) (mx : Nat) (m : ConsumedTokenMarker)
    (hv : validateToken hmac tok uid now = .ok (aid, mx)) (hr : ¬ (delta < 1 ∨ delta > mx))
    (hm : st.consumed.lookup tok = some m) (hc : st.respCache.lookup tok = none) :
    processScoreUpdate hmac st tok uid delta now = (st, .pendingRetry) := by
  simp only [processScoreUpdate, hv]
  rw [if_neg hr]
  simp [hm, hc]

theorem process_fresh (hmac : String → Nat) (st : SystemState) (tok : ActionToken)
    (uid : String) (delta now : Nat) (aid : String) (mx : Nat) (p1 : LedgerState)
    (p2 : ScoreResponse)
    (hv : validateToken hmac tok uid now = .ok (aid, mx)) (hr : ¬ (delta < 1 ∨ delta > mx))
    (hm : st.consumed.lookup tok = none)
    (ha : applyDelta st.ledger uid delta mx tok now = .ok (p1, p2)) :
    processScoreUpdate hmac st tok uid delta now =
      (⟨(tok, ⟨uid, now, tok.expires_at⟩) :: st.consumed, (tok, p2) :: st.respCache, p1⟩,
        .admitted p2) := by
  simp only [processScoreUpdate, hv]
  rw [if_neg hr]
  simp [hm, ha]

theorem process_shape (hmac : String → Nat) (st : SystemState) (tok : ActionToken)
    (uid : String) (delta now : Nat) :
    ((processScoreUpdate hmac st tok uid delta now).1 = st ∧
      isAdmittedB (processScoreUpdate hmac st tok uid delta now).2 = false) ∨
    (st.consumed.lookup tok = none ∧ ¬ tok.expires_at < now ∧
      isAdmittedB (processScoreUpdate hmac st tok uid delta now).2 = true ∧
      (processScoreUpdate hmac st tok uid delta now).1.consumed =
        (tok, ⟨uid, now, tok.expires_at⟩) :: st.consumed ∧
      ∃ p1 p2, applyDelta st.ledger uid delta tok.max_score tok now = .ok (p1, p2) ∧
        (processScoreUpdate hmac st tok uid delta now).1.ledger = p1 ∧
        (processScoreUpdate hmac st tok uid delta now).2 = .admitted p2) := by
  cases hv : validateToken hmac tok uid now with
  | error e =>
    left
    rw [process_validate_error hmac st tok uid delta now e hv]
    exact ⟨rfl, rfl⟩
  | ok v =>
    obtain ⟨veq, hsig, hexp, huid⟩ := validateToken_ok hmac tok uid now v hv
    subst veq
    by_cases hr : delta < 1 ∨ delta > tok.max_score
    · left
      rw [process_oor hmac st tok uid delta now _ _ hv hr]
      exact ⟨rfl, rfl⟩
    · cases hm : st.consumed.lookup tok with
      | some m =>
        left
        cases hc : st.respCache.lookup tok with
        | some resp =>
          rw [process_consumed_cached hmac st tok uid delta now _ _ m resp hv hr hm hc]
          exact ⟨rfl, rfl⟩
        | none =>
          rw [process_consumed_pending hmac st tok uid delta now _ _ m hv hr hm hc]
          exact ⟨rfl, rfl⟩
      | none =>
        right
        obtain ⟨p1, p2, ha⟩ := applyDelta_ok_of_in_range st.ledger uid delta tok.max_score
          tok now (by omega) (by omega)
        rw [process_fresh hmac st tok uid delta now _ _ p1 p2 hv hr hm ha]
        exact ⟨rfl, hexp, rfl, rfl, p1, p2, ha, rfl, rfl⟩

theorem admCount_zero_of_blocked (hmac : String → Nat) (tok : TokenFingerprint) :
    ∀ (ops : List SysOp) (t0 : Nat) (st : SystemState), timesMonoB t0 ops = true →
      ((∃ m, st.consumed.lookup tok = some m ∧ m.expires_at = tok.expires_at) ∨
        tok.expires_at < t0) →
      admCount hmac st ops tok = 0 := by
  intro ops
  induction ops with
  | nil => intro t0 st _ _; rfl
  | cons op rest ih =>
    intro t0 st hmono hinv
    rw [timesMonoB] at hmono
    simp only [Bool.and_eq_true, decide_eq_true_eq] at hmono
    obtain ⟨hle, hmono'⟩ := hmono
    cases op with
    | prune tp =>
      simp only [admCount]
      apply ih tp _ hmono'
      rcases hinv with ⟨m, hm, hexp⟩ | hexp
      · by_cases hdel : m.expires_at < tp
        · right
          simp only [opTime] at hle
          omega
        · left
          refine ⟨m, ?_, hexp⟩
          exact lookup_filter_keep _ st.consumed tok m hm (by simp [hdel])
      · right
        simp only [opTime] at hle
        omega
    | submit tok' uid delta now =>
      simp only [opTime] at hle
      simp only [admCount]
      rcases process_shape hmac st tok' uid delta now with ⟨hst, hadm⟩ | hjust
      · rw [if_neg (by simp [hadm])]
        rw [hst, Nat.zero_add]
        apply ih now st hmono'
        rcases hinv with ⟨m, hm, hexp⟩ | hexp
        · exact Or.inl ⟨m, hm, hexp⟩
        · right; omega
      · obtain ⟨hnone, hnexp, hadm, hcons, -⟩ := hjust
        by_cases htok : tok' = tok
        · subst htok
          exfalso
          rcases hinv with ⟨m, hm, -⟩ | hexp
          · rw [hnone] at hm
            cases hm
          · exact hnexp (by omega)
        · rw [if_neg (by simp [htok]), Nat.zero_add]
          apply ih now _ hmono'
          rcases hinv with ⟨m, hm, hexp⟩ | hexp
          · left
            refine ⟨m, ?_, hexp⟩
            rw [hcons]
            rw [lookup_cons_ne tok tok' _ _ (fun he => htok he.symm)]
            exact hm
          · right; omega

theorem admCount_le_one_of_mono (hmac : String → Nat) (tok : TokenFingerprint) :
    ∀ (ops : List SysOp) (t0 : Nat) (st : SystemState), timesMonoB t0 ops = true →
      admCount hmac st ops tok ≤ 1 := by
  intro ops
  induction ops with
  | nil => intro t0 st _; simp [admCount]
  | cons op rest ih =>
    intro t0 st hmono
    rw [timesMonoB] at hmono
    simp only [Bool.and_eq_true, decide_eq_true_eq] at hmono
    obtain ⟨hle, hmono'⟩ := hmono
    cases op with
    | prune tp =>
      simp only [admCount]
      exact ih tp _ hmono'
    | submit tok' uid delta now =>
      simp only [admCount]
      by_cases hcond : tok' = tok ∧ isAdmittedB (processScoreUpdate hmac st tok' uid delta now).2 = true
      · obtain ⟨htok, hadm⟩ := hcond
        subst htok
        rcases process_shape hmac st tok' uid delta now with ⟨-, hf⟩ | ⟨-, -, -, hcons, -⟩
        · rw [hf] at hadm
          cases hadm
        · rw [if_pos ⟨rfl, hadm⟩]
          have h0 : admCount hmac (processScoreUpdate hmac st tok' uid delta now).1 rest tok' = 0 := by
            apply admCount_zero_of_blocked hmac tok' rest now _ hmono'
            left
            refine ⟨⟨uid, now, tok'.expires_at⟩, ?_, rfl⟩
            rw [hcons]
            exact lookup_cons_self _ _ _
          omega
      · rw [if_neg hcond]
        have := ih now (processScoreUpdate hmac st tok' uid delta now).1 hmono'
        omega

theorem applySysOp_score_mono (hmac : String → Nat) (st : SystemState) (op : SysOp)
    (uid : String) :
    ledgerScoreOf st.ledger uid ≤ ledgerScoreOf (applySysOp hmac st op).ledger uid := by
  cases op with
  | prune tp => exact Nat.le_refl _
  | submit tok u delta now =>
    simp only [applySysOp]
    rcases process_shape hmac st tok u delta now with ⟨hst, -⟩ | ⟨-, -, -, -, p1, p2, ha, hled, -⟩
    · rw [hst]
    · rw [hled]
      exact applyDelta_score_ge _ _ _ _ _ _ _ _ ha uid

theorem runSys_score_mono (hmac : String → Nat) :
    ∀ (ops : List SysOp) (st : SystemState) (uid : String),
      ledgerScoreOf st.ledger uid ≤ ledgerScoreOf (runSys hmac st ops).ledger uid := by
  intro ops
  induction ops with
  | nil => intro st uid; exact Nat.le_refl _
  | cons op rest ih =>
    intro st uid
    exact Nat.le_trans (applySysOp_score_mono hmac st op uid) (ih (applySysOp hmac st op) uid)

theorem applySysOp_events (hmac : String → Nat) (st : SystemState) (op : SysOp) :
    ∀ e ∈ (applySysOp hmac st op).ledger.events,
      e ∈ st.ledger.events ∨ e.score_after = e.score_before + e.delta := by
  cases op with
  | prune tp => exact fun e he => Or.inl he
  | submit tok u delta now =>
    simp only [applySysOp]
    rcases process_shape hmac st tok u delta now with ⟨hst, -⟩ | ⟨-, -, -, -, p1, p2, ha, hled, -⟩
    · rw [hst]
      exact fun e he => Or.inl he
    · rw [hled]
      exact applyDelta_events_mem _ _ _ _ _ _ _ _ ha

theorem runSys_events (hmac : String → Nat) :
    ∀ (ops : List SysOp) (st : SystemState),
      (∀ e ∈ st.ledger.events, e.score_after = e.score_before + e.delta) →
      ∀ e ∈ (runSys hmac st ops).ledger.events, e.score_after = e.score_before + e.delta := by
  intro ops
  induction ops with
  | nil => intro st h; exact h
  | cons op rest ih =>
    intro st h
    apply ih (applySysOp hmac st op)
    intro e he
    rcases applySysOp_events hmac st op e he with hmem | hnew
    · exact h e hmem
    · exact hnew

theorem processMany_replay (hmac : String → Nat) (st : SystemState) (tok : ActionToken)
    (uid : String) (delta now : Nat) (aid : String) (mx : Nat) (m : ConsumedTokenMarker)
    (resp : ScoreResponse)
    (hv : validateToken hmac tok uid now = .ok (aid, mx)) (hr : ¬ (delta < 1 ∨ delta > mx))
    (hm : st.consumed.lookup tok = some m) (hc : st.respCache.lookup tok = some resp) :
    ∀ k, processMany hmac st (List.replicate k ⟨tok, uid, delta, now⟩) =
      (st, List.replicate k (.replayed resp)) := by
  intro k
  induction k with
  | zero => rfl
  | succ k ih =>
    rw [List.replicate_succ, List.replicate_succ]
    simp only [processMany]
    rw [process_consumed_cached hmac st tok uid delta now aid mx m resp hv hr hm hc, ih]

theorem countDiff_eq_zero {l1 l2 : List LeaderboardEntry} (h : countDiff l1 l2 = 0) :
    l1 = l2 := by
  unfold countDiff at h
  rw [List.length_eq_zero] at h
  apply List.ext_get?
  intro i
  by_cases hi : i < max l1.length l2.length
  · by_contra hne
    have hmem : i ∈ (List.range (max l1.length l2.length)).filter
        (fun i => decide (l1.get? i ≠ l2.get? i)) := by
      simp only [List.mem_filter, List.mem_range, decide_eq_true_eq]
      exact ⟨hi, hne⟩
    rw [h] at hmem
    cases hmem
  · rw [List.get?_eq_none.mpr (by omega), List.get?_eq_none.mpr (by omega)]

theorem sum_to_n_b_succ (n : Nat) : sum_to_n_b (n + 1) = sum_to_n_b n + (n + 1) := by
  unfold sum_to_n_b
  rw [List.range'_concat 1 n, List.foldl_append]
  simp
  omega

theorem sum_to_n_c_succ (n : Nat) : sum_to_n_c (n + 1) = sum_to_n_c n + (n + 1) := by
  cases n with
  | zero => rfl
  | succ k =>
    rw [sum_to_n_c]
    omega

theorem two_mul_sum_to_n_c (n : Nat) : 2 * sum_to_n_c n = n * (n + 1) := by
  induction n with
  | zero => rfl
  | succ k ih =>
    rw [sum_to_n_c_succ, Nat.mul_add, ih]
    ring

theorem sum_to_n_b_eq_c (n : Nat) : sum_to_n_b n = sum_to_n_c n := by
  induction n with
  | zero => rfl
  | succ k ih => rw [sum_to_n_b_succ, sum_to_n_c_succ, ih]

/-- Claim C10: the three `sum_to_n` implementations agree for every natural
`n` and compute the closed form `n * (n + 1) / 2`. -/
theorem sum_to_n_three_ways_agree (n : Nat) :
    sum_to_n_a n = sum_to_n_b n ∧ sum_to_n_b n = sum_to_n_c n ∧
      sum_to_n_c n = n * (n + 1) / 2 := by
  have hc : sum_to_n_c n = n * (n + 1) / 2 := by
    have h2 := two_mul_sum_to_n_c n
    omega
  refine ⟨?_, sum_to_n_b_eq_c n, hc⟩
  rw [sum_to_n_b_eq_c n, hc]
  rfl

/-- Claim C4: for timestamps within the encoding range, the composite Redis
key orders entries exactly as `(total_score DESC, rank_watermark ASC)`, and
therefore exactly as the ledger's authoritative comparison `recBeats`; of two
equal totals the earlier watermark ranks strictly higher. -/
theorem composite_key_matches_ledger_order (s1 t1 s2 t2 : Nat)
    (h1 : t1 ≤ MAX_TIMESTAMP) (h2 : t2 ≤ MAX_TIMESTAMP) :
    ((compositeScore s1 t1 > compositeScore s2 t2) ↔ (s1 > s2 ∨ (s1 = s2 ∧ t1 < t2))) ∧
    ((compositeScore s1 t1 > compositeScore s2 t2) ↔
      recBeats ⟨s1, t1, 0⟩ ⟨s2, t2, 0⟩ = true) := by
  unfold MAX_TIMESTAMP at h1 h2
  unfold compositeScore MAX_TIMESTAMP
  constructor
  · omega
  · simp only [recBeats, decide_eq_true_eq]
    omega

/-- Witness for C4 at the spec's example: both users reach 1000, at times 10
and 12; the earlier one gets the strictly larger composite key. -/
theorem composite_key_matches_ledger_order_witness :
    (10 ≤ MAX_TIMESTAMP ∧ 12 ≤ MAX_TIMESTAMP) ∧
    ((compositeScore 1000 10 > compositeScore 1000 12) ↔
      (1000 > 1000 ∨ (1000 = 1000 ∧ 10 < 12))) ∧
    ((compositeScore 1000 10 > compositeScore 1000 12) ↔
      recBeats ⟨1000, 10, 0⟩ ⟨1000, 12, 0⟩ = true) :=
  ⟨⟨by decide, by decide⟩,
    composite_key_matches_ledger_order 1000 10 1000 12 (by decide) (by decide)⟩

/-- Claim C3: a requested delta outside `1 <= delta <= max_score` fails with
`DeltaOutOfRange` and performs no write: `applyDelta` returns the bare error,
and the pipeline returns the durable state unchanged (scores, audit log and
consumed markers all as before). -/
theorem delta_out_of_range_rejected (st : LedgerState) (sys : SystemState)
    (hmac : String → Nat) (tok : ActionToken) (uid : String) (delta mx : Nat)
    (fp : TokenFingerprint) (now : Nat) (aid : String)
    (hd : delta < 1 ∨ delta > mx)
    (hv : validateToken hmac tok uid now = .ok (aid, mx)) :
    applyDelta st uid delta mx fp now = .error .DeltaOutOfRange ∧
      processScoreUpdate hmac sys tok uid delta now =
        (sys, .rejectedDelta .DeltaOutOfRange) :=
  ⟨applyDelta_oor st uid delta mx fp now hd,
    process_oor hmac sys tok uid delta now aid mx hv hd⟩

/-- Witness for C3 at the spec's example: a token with `max_score = 50` and a
requested `delta = 80` is rejected with zero ledger writes. -/
theorem delta_out_of_range_rejected_witness :
    ((80 < 1 ∨ 80 > 50) ∧ validateToken hmacLen demoTok "u1" 50 = .ok ("a1", 50)) ∧
    applyDelta initLedger "u1" 80 50 (fpTok 7) 50 = .error .DeltaOutOfRange ∧
    processScoreUpdate hmacLen initSystemState demoTok "u1" 80 50 =
      (initSystemState, .rejectedDelta .DeltaOutOfRange) :=
  ⟨⟨by decide, by decide⟩,
    delta_out_of_range_rejected initLedger initSystemState hmacLen demoTok "u1" 80 50
      (fpTok 7) 50 "a1" (by decide) (by decide)⟩

/-- Claim C7 (amended): after a Reconciler run, `topN` from the Index equals
`topN` from the Ledger for every `n` within the top-100 window, provided the
member-wise drift is not exactly one entry: a drift above the tolerance
triggers the full rebuild, and zero drift needs none; a drift of exactly one
entry is tolerated and persists. -/
theorem reconcile_topn_agrees (ledger : LedgerState) (idx : List LeaderboardEntry)
    (n : Nat) (hn : n ≤ 100)
    (hd : countDiff (topNIndex 100 idx) (topNLedger 100 ledger) ≠ 1) :
    topNIndex n (reconcile ledger idx) = topNLedger n ledger := by
  by_cases hgt : countDiff (topNIndex 100 idx) (topNLedger 100 ledger) > 1
  · unfold reconcile
    rw [if_pos hgt]
    rfl
  · have h0 : countDiff (topNIndex 100 idx) (topNLedger 100 ledger) = 0 := by omega
    have heq := countDiff_eq_zero h0
    unfold reconcile
    rw [if_neg hgt]
    have hidx : topNIndex n idx = (topNIndex 100 idx).take n := by
      unfold topNIndex
      rw [List.take_take, Nat.min_eq_left hn]
    have hled : topNLedger n ledger = (topNLedger 100 ledger).take n := by
      unfold topNLedger
      rw [List.take_take, Nat.min_eq_left hn]
    rw [hidx, hled, heq]

/-- Witness for C7 at a concrete clean pair: a freshly rebuilt index for
`c7Ledger` has zero drift, and the served top-1 agrees with the ledger. -/
theorem reconcile_topn_agrees_witness :
    (1 ≤ 100 ∧
      countDiff (topNIndex 100 (ledgerEntriesOf c7Ledger)) (topNLedger 100 c7Ledger) ≠ 1) ∧
    topNIndex 1 (reconcile c7Ledger (ledgerEntriesOf c7Ledger)) = topNLedger 1 c7Ledger :=
  ⟨⟨by decide, by decide⟩,
    reconcile_topn_agrees c7Ledger (ledgerEntriesOf c7Ledger) 1 (by decide) (by decide)⟩

/-- Counterexample to C7 as stated: with a prior one-entry drift (the index
caches 90 while the ledger holds 100), the run logs a clean check within the
tolerance, rebuilds nothing, and `topN` from the Index still differs from
`topN` from the Ledger after the run completes. -/
theorem reconcile_one_entry_drift_persists :
    countDiff (topNIndex 100 c7Index) (topNLedger 100 c7Ledger) = 1 ∧
    reconcile c7Ledger c7Index = c7Index ∧
    topNIndex 1 (reconcile c7Ledger c7Index) = [⟨"u1", 90, 5⟩] ∧
    topNLedger 1 c7Ledger = [⟨"u1", 100, 5⟩] ∧
    topNIndex 1 (reconcile c7Ledger c7Index) ≠ topNLedger 1 c7Ledger := by decide

/-- Claim C8 (amended): when neither `action_id` nor `user_id` contains the
`:` separator, two tokens whose field tuples differ anywhere have different
canonical payloads, so the deterministic keyed hash is computed over
different inputs and a field change invalidates the signature; without that
restriction the payload encoding is ambiguous and the claim fails. -/
theorem field_change_changes_payload (t1 t2 : ActionToken)
    (h1a : ':' ∉ t1.action_id.data) (h1u : ':' ∉ t1.user_id.data)
    (h2a : ':' ∉ t2.action_id.data) (h2u : ':' ∉ t2.user_id.data)
    (hne : t1.action_id ≠ t2.action_id ∨ t1.user_id ≠ t2.user_id ∨
      t1.max_score ≠ t2.max_score ∨ t1.expires_at ≠ t2.expires_at) :
    tokenPayload t1 ≠ tokenPayload t2 := by
  intro h
  obtain ⟨ha, hu, hm, he⟩ := tokenPayload_inj t1 t2 h1a h1u h2a h2u h
  tauto

/-- Witness for C8 at concrete colon-free tokens differing in `expires_at`. -/
theorem field_change_changes_payload_witness :
    (':' ∉ demoTok.action_id.data ∧ ':' ∉ demoTok.user_id.data ∧
      demoTok.expires_at ≠ (⟨"a1", "u1", 50, 101, 0⟩ : ActionToken).expires_at) ∧
    tokenPayload demoTok ≠ tokenPayload (⟨"a1", "u1", 50, 101, 0⟩ : ActionToken) :=
  ⟨⟨by decide, by decide, by decide⟩,
    field_change_changes_payload demoTok ⟨"a1", "u1", 50, 101, 0⟩ (by decide) (by decide)
      (by decide) (by decide) (Or.inr (Or.inr (Or.inr (by decide))))⟩

/-- Counterexample to C8 as stated: two tokens whose `(action_id, user_id)`
pairs differ produce the same canonical payload `a:u1:u2:7:99`, so the keyed
hash agrees and both altered tokens pass signature verification. -/
theorem colliding_payload_tokens :
    tokenPayload c8tok1 = tokenPayload c8tok2 ∧
    c8tok1.action_id ≠ c8tok2.action_id ∧ c8tok1.user_id ≠ c8tok2.user_id ∧
    validateToken hmacLen c8tok1 "u2" 50 = .ok ("a:u1", 7) ∧
    validateToken hmacLen c8tok2 "u1:u2" 50 = .ok ("a", 7) := by decide

/-- Claim C5 (amended): the `scores` UPDATE sets the watermark to `now`
whenever the applied delta is positive, so after every successful
`applyDelta` whose pre-state total is below `MAX_SAFE_INTEGER` the stored
`rank_watermark` equals `now`; at the cap the applied delta degenerates to 0
and the watermark is left unchanged. -/
theorem watermark_set_to_now_below_cap
    (r : ScoreRecord) (st : LedgerState) (uid : String) (delta mx : Nat)
    (fp : TokenFingerprint) (now : Nat) (p1 : LedgerState) (p2 : ScoreResponse)
    (hdelta : 1 ≤ delta)
    (hlt : ledgerScoreOf st uid < MAX_SAFE_INTEGER)
    (h : applyDelta st uid delta mx fp now = .ok (p1, p2)) :
    (updateScoresRow r delta now).score_first_reached_at = now ∧
      ledgerWatermarkOf p1 uid = now := by
  constructor
  · have hgt : r.total_score + delta > r.total_score := by omega
    simp [updateScoresRow, hgt]
  · exact applyDelta_watermark_self st uid delta mx fp now p1 p2 hlt h

/-- Witness for C5 at a concrete call: delta 7 at time 42 from total 0. -/
theorem watermark_set_to_now_below_cap_witness :
    (1 ≤ 7 ∧ ledgerScoreOf initLedger "u1" < MAX_SAFE_INTEGER ∧
      applyDelta initLedger "u1" 7 50 (fpTok 8) 42 = .ok (c5wit1, c5wit2)) ∧
    (updateScoresRow ⟨5, 3, 3⟩ 7 42).score_first_reached_at = 42 ∧
    ledgerWatermarkOf c5wit1 "u1" = 42 :=
  ⟨⟨by decide, by decide, by decide⟩,
    watermark_set_to_now_below_cap ⟨5, 3, 3⟩ initLedger "u1" 7 50 (fpTok 8) 42 c5wit1 c5wit2
      (by decide) (by decide) (by decide)⟩

/-- Counterexample to C5 as stated: in a concrete reachable history, a call
with delta 1 at time 20 succeeds while the user already sits at
`MAX_SAFE_INTEGER`; the stored watermark stays 10 instead of becoming 20. -/
theorem watermark_stale_at_cap :
    exceptScore c5call2 "u1" = some 9007199254740991 ∧
    exceptWatermark c5call2 "u1" = some 10 ∧ (10 : Nat) ≠ 20 := by decide

/-- Claim C6 (amended): when `total_score + delta` would pass
`Number.MAX_SAFE_INTEGER`, the call does not fail: per EDGE-005 the
application caps the stored total at the maximum, still appends the audit
event, and the total never exceeds the maximum. -/
theorem overflow_capped_not_failed (st : LedgerState) (uid : String) (delta mx : Nat)
    (fp : TokenFingerprint) (now : Nat)
    (h1 : 1 ≤ delta) (h2 : delta ≤ mx) (hb : ledgerScoreOf st uid ≤ MAX_SAFE_INTEGER) :
    (∃ p1 p2, applyDelta st uid delta mx fp now = .ok (p1, p2)) ∧
    ∀ p1 p2, applyDelta st uid delta mx fp now = .ok (p1, p2) →
      ledgerScoreOf p1 uid = min (ledgerScoreOf st uid + delta) MAX_SAFE_INTEGER ∧
      ledgerScoreOf p1 uid ≤ MAX_SAFE_INTEGER ∧
      p1.events.length = st.events.length + 1 := by
  refine ⟨applyDelta_ok_of_in_range st uid delta mx fp now h1 h2, ?_⟩
  intro p1 p2 h
  have hs := applyDelta_score_self st uid delta mx fp now p1 p2 h
  exact ⟨by omega, by omega, applyDelta_events_len st uid delta mx fp now p1 p2 h⟩

/-- Witness for C6 at a concrete call: delta 3 from total 0 at time 7. -/
theorem overflow_capped_not_failed_witness :
    (1 ≤ 3 ∧ 3 ≤ 10 ∧ ledgerScoreOf initLedger "u1" ≤ MAX_SAFE_INTEGER ∧
      applyDelta initLedger "u1" 3 10 (fpTok 9) 7 = .ok (c6wit1, c6wit2)) ∧
    ledgerScoreOf c6wit1 "u1" = min (ledgerScoreOf initLedger "u1" + 3) MAX_SAFE_INTEGER ∧
    ledgerScoreOf c6wit1 "u1" ≤ MAX_SAFE_INTEGER ∧
    c6wit1.events.length = initLedger.events.length + 1 :=
  ⟨⟨by decide, by decide, by decide, by decide⟩,
    (overflow_capped_not_failed initLedger "u1" 3 10 (fpTok 9) 7 (by decide) (by decide)
      (by decide)).2 c6wit1 c6wit2 (by decide)⟩

/-- Counterexample to C6 as stated: in a concrete reachable history, the call
whose `total_score + delta` passes the maximum returns success with the total
capped at `MAX_SAFE_INTEGER` and a second audit event written, instead of
failing with `ScoreOverflow` and writing nothing. -/
theorem overflow_call_succeeds_and_writes :
    9007199254740990 + 5 > MAX_SAFE_INTEGER ∧
    exceptScore c6call2 "u1" = some MAX_SAFE_INTEGER ∧
    exceptEventsLen c6call2 = some 2 := by decide

/-- Claim C2 (amended): across any operation history, `total_score` is
monotonically non-decreasing for every user, and every recorded `ScoreEvent`
satisfies `score_after = score_before + delta >= score_before` for its
recorded (capped) delta; a successful `applyDelta` increases the total by the
requested delta except when the `MAX_SAFE_INTEGER` cap engages. -/
theorem total_score_never_decreases (hmac : String → Nat) (st : SystemState)
    (ops : List SysOp) (uid : String)
    (hev : ∀ e ∈ st.ledger.events, e.score_after = e.score_before + e.delta) :
    ledgerScoreOf st.ledger uid ≤ ledgerScoreOf (runSys hmac st ops).ledger uid ∧
    ∀ e ∈ (runSys hmac st ops).ledger.events,
      e.score_after = e.score_before + e.delta ∧ e.score_before ≤ e.score_after := by
  refine ⟨runSys_score_mono hmac ops st uid, ?_⟩
  intro e he
  have h := runSys_events hmac ops st hev e he
  exact ⟨h, by omega⟩

/-- Witness for C2 on a concrete one-submission history from the empty
state. -/
theorem total_score_never_decreases_witness :
    ledgerScoreOf initSystemState.ledger "u1" ≤
      ledgerScoreOf (runSys hmacLen initSystemState [.submit demoTok "u1" 7 50]).ledger "u1" :=
  (total_score_never_decreases hmacLen initSystemState [.submit demoTok "u1" 7 50] "u1"
    (by intro e he; simp [initSystemState, initLedger] at he)).1

/-- Counterexample to C2 as stated: in a concrete reachable history, a
successful `applyDelta` with requested delta 2 moves the total from
`MAX_SAFE_INTEGER - 1` to `MAX_SAFE_INTEGER`, an increase of 1, not 2. -/
theorem cap_breaks_increase_by_delta :
    exceptScore c2call1 "u1" = some 9007199254740990 ∧
    exceptScore c2call2 "u1" = some 9007199254740991 ∧
    (9007199254740991 : Nat) ≠ 9007199254740990 + 2 := by decide

/-- Claim C1: for a valid, unused token, `n >= 1` duplicate submissions,
serialized by the guard's atomic insert-if-absent on the token fingerprint,
admit exactly one caller, commit exactly one `ScoreEvent`, and give every
caller the identical response payload (the admitted caller's response,
replayed from the idempotency cache). -/
theorem duplicate_submissions_one_mutation (hmac : String → Nat) (st : SystemState)
    (tok : ActionToken) (uid aid : String) (delta mx now n : Nat)
    (hv : validateToken hmac tok uid now = .ok (aid, mx))
    (h1 : 1 ≤ delta) (h2 : delta ≤ mx)
    (hfresh : st.consumed.lookup tok = none)
    (hn : 1 ≤ n) :
    (processMany hmac st (List.replicate n ⟨tok, uid, delta, now⟩)).1.ledger.events.length =
      st.ledger.events.length + 1 ∧
    ((processMany hmac st (List.replicate n ⟨tok, uid, delta, now⟩)).2.filter
      (fun r => isAdmittedB r)).length = 1 ∧
    ∃ resp, ∀ r ∈ (processMany hmac st (List.replicate n ⟨tok, uid, delta, now⟩)).2,
      resultPayload r = some resp := by
  obtain ⟨m, rfl⟩ : ∃ m, n = m + 1 := ⟨n - 1, by omega⟩
  have hr : ¬ (delta < 1 ∨ delta > mx) := by omega
  obtain ⟨p1, p2, ha⟩ := applyDelta_ok_of_in_range st.ledger uid delta mx tok now h1 h2
  have hfirst := process_fresh hmac st tok uid delta now aid mx p1 p2 hv hr hfresh ha
  have hm1 : (⟨(tok, ⟨uid, now, tok.expires_at⟩) :: st.consumed,
      (tok, p2) :: st.respCache, p1⟩ : SystemState).consumed.lookup tok =
      some ⟨uid, now, tok.expires_at⟩ := lookup_cons_self _ _ _
  have hc1 : (⟨(tok, ⟨uid, now, tok.expires_at⟩) :: st.consumed,
      (tok, p2) :: st.respCache, p1⟩ : SystemState).respCache.lookup tok = some p2 :=
    lookup_cons_self _ _ _
  have hrest := processMany_replay hmac _ tok uid delta now aid mx _ p2 hv hr hm1 hc1 m
  have hall : processMany hmac st (List.replicate (m + 1) ⟨tok, uid, delta, now⟩) =
      (⟨(tok, ⟨uid, now, tok.expires_at⟩) :: st.consumed, (tok, p2) :: st.respCache, p1⟩,
        .admitted p2 :: List.replicate m (.replayed p2)) := by
    rw [List.replicate_succ]
    simp only [processMany]
    rw [hfirst, hrest]
  rw [hall]
  refine ⟨?_, ?_, p2, ?_⟩
  · exact applyDelta_events_len st.ledger uid delta mx tok now p1 p2 ha
  · simp [List.filter_replicate, isAdmittedB]
  · intro r hrm
    rcases List.mem_cons.mp hrm with hrm | hrm
    · subst hrm; rfl
    · rw [List.eq_of_mem_replicate hrm]; rfl

/-- Witness for C1: three duplicate submissions of the concrete valid token,
from the empty state. -/
theorem duplicate_submissions_one_mutation_witness :
    (validateToken hmacLen demoTok "u1" 50 = .ok ("a1", 50) ∧
      initSystemState.consumed.lookup demoTok = none ∧ (1 : Nat) ≤ 7 ∧ (7 : Nat) ≤ 50 ∧
      (1 : Nat) ≤ 3) ∧
    (processMany hmacLen initSystemState
      (List.replicate 3 ⟨demoTok, "u1", 7, 50⟩)).1.ledger.events.length =
      initSystemState.ledger.events.length + 1 ∧
    ((processMany hmacLen initSystemState
      (List.replicate 3 ⟨demoTok, "u1", 7, 50⟩)).2.filter (fun r => isAdmittedB r)).length = 1 :=
  ⟨⟨by decide, by decide, by decide, by decide, by decide⟩,
    (duplicate_submissions_one_mutation hmacLen initSystemState demoTok "u1" "a1" 7 50 50 3
      (by decide) (by decide) (by decide) (by decide) (by decide)).1,
    (duplicate_submissions_one_mutation hmacLen initSystemState demoTok "u1" "a1" 7 50 50 3
      (by decide) (by decide) (by decide) (by decide) (by decide)).2.1⟩

/-- Claim C9: garbage-collecting consumed markers never re-enables replay.
An expired token is rejected by the expiry check before any marker lookup,
and along every operation sequence with non-decreasing times (submissions
and marker-pruning runs, from any state), a given token is admitted at most
once: pruning only deletes markers whose `expires_at` has passed, and from
then on the expiry check rejects the token. -/
theorem consumed_token_never_readmitted :
    (∀ (hmac : String → Nat) (st : SystemState) (tok : ActionToken) (uid : String)
      (delta now : Nat), tok.expires_at < now → tok.signature = hmac (tokenPayload tok) →
        processScoreUpdate hmac st tok uid delta now = (st, .rejectedToken .TokenExpired)) ∧
    (∀ (hmac : String → Nat) (ops : List SysOp) (t0 : Nat) (st : SystemState)
      (tok : TokenFingerprint), timesMonoB t0 ops = true → admCount hmac st ops tok ≤ 1) := by
  constructor
  · intro hmac st tok uid delta now hexp hsig
    have hv : validateToken hmac tok uid now = .error .TokenExpired := by
      unfold validateToken
      rw [if_neg (by simp [hsig]), if_pos hexp]
    exact process_validate_error hmac st tok uid delta now _ hv
  · intro hmac ops t0 st tok hmono
    exact admCount_le_one_of_mono hmac tok ops t0 st hmono

/-- Witness for C9: the concrete token expired at 100 is rejected when
resubmitted at 200, and the concrete duplicate-submit/prune/resubmit history
admits it at most once. -/
theorem consumed_token_never_readmitted_witness :
    processScoreUpdate hmacLen initSystemState c9tok "u9" 5 200 =
      (initSystemState, .rejectedToken .TokenExpired) ∧
    admCount hmacLen initSystemState c9ops c9tok ≤ 1 :=
  ⟨consumed_token_never_readmitted.1 hmacLen initSystemState c9tok "u9" 5 200
      (by decide) (by decide),
    consumed_token_never_readmitted.2 hmacLen c9ops 0 initSystemState c9tok (by decide)⟩
